import Mathlib

/-!
# Verification of the Vanguard CSV-export adapter

Shallow embedding of `vanguard.py` from `bankroll-broker-vanguard`: the
adapter that turns a Vanguard CSV export into positions and activity
records.  External collaborators that live outside this repository's
sources are embedded as follows:

* Python's `decimal.Decimal` string constructor and
  `datetime.strptime(_, "%m/%d/%Y")` are embedded from their documented
  semantics (`parseDecimal`, `strptimeMDY`).  Values are exact rationals;
  the non-finite specials (`Infinity`, `NaN`) are outside the adapter's
  numeric domain and are treated as parse failures.  Whitespace stripping
  models the ASCII whitespace characters.
* The domain constructors (`Stock`, `Bond`, `Cash`, `Trade`, `Position`)
  are value types from the external model package and are embedded as
  plain structures (their own validation is out of scope for this
  repository's spec).
* `realizedBasisForSymbol` is an external collaborator of type
  `symbol → activity → Optional[Cash]`; it is passed as a parameter.
* The csv section slicer and the lenient row transformer are part of this
  project but not among its source files; they are modelled from the
  specification (sections 4.1 and 4.2).
-/

/-! ## Currency, instruments and the domain value types -/

inductive Currency where
  | USD
deriving DecidableEq, Repr

/-- Instruments as used by the adapter: only `Stock` and `Bond` are ever
constructed by `vanguard.py`. -/
inductive Instrument where
  | stock (symbol : String) (currency : Currency)
  | bond (symbol : String) (currency : Currency)
deriving DecidableEq, Repr

/-- The identifying symbol of an instrument (the `.symbol` attribute). -/
def Instrument.symbol : Instrument → String
  | .stock s _ => s
  | .bond s _ => s

structure Cash where
  currency : Currency
  quantity : ℚ
deriving DecidableEq, Repr

/-- Trade flags, embedded as a set of independent boolean flags (the
Python `TradeFlags` is a flag enum combined with `|`). -/
structure TradeFlags where
  isOpen : Bool
  isClose : Bool
  drip : Bool
  expired : Bool
  assigned : Bool
deriving DecidableEq, Repr

def TradeFlags.NONE : TradeFlags := ⟨false, false, false, false, false⟩
def TradeFlags.OPEN : TradeFlags := ⟨true, false, false, false, false⟩
def TradeFlags.CLOSE : TradeFlags := ⟨false, true, false, false, false⟩
def TradeFlags.DRIP : TradeFlags := ⟨false, false, true, false, false⟩

/-- Combination of two flag sets (Python `|` on the flag enum). -/
def TradeFlags.or (a b : TradeFlags) : TradeFlags :=
  ⟨a.isOpen || b.isOpen, a.isClose || b.isClose, a.drip || b.drip,
   a.expired || b.expired, a.assigned || b.assigned⟩

/-- A calendar date, the result of `datetime.strptime(_, "%m/%d/%Y")`
(the time-of-day part is always midnight and is omitted). -/
structure DateMDY where
  year : Nat
  month : Nat
  day : Nat
deriving DecidableEq, Repr

structure Trade where
  date : DateMDY
  instrument : Instrument
  quantity : ℚ
  amount : Cash
  fees : Cash
  flags : TradeFlags
deriving DecidableEq, Repr

structure DividendPayment where
  date : DateMDY
  stock : Instrument
  proceeds : Cash
deriving DecidableEq, Repr

/-- An activity record is a `Trade` or a `DividendPayment` (the
`Activity` union of the external model). -/
inductive Activity where
  | trade (t : Trade)
  | dividendPayment (d : DividendPayment)
deriving DecidableEq, Repr

structure Position where
  instrument : Instrument
  quantity : ℚ
  costBasis : Cash
deriving DecidableEq, Repr

/-- Type of the external `realizedBasisForSymbol` collaborator. -/
abbrev RealizedBasisFn := String → List Activity → Option Cash

/-! ## Python `Decimal` string parsing

`decimal.Decimal(s)` accepts, after removing underscores and stripping
surrounding whitespace, `[sign] digits [. digits] [exponent]` where the
digit part must contain at least one digit (either side of the point) and
the exponent is `e`/`E` followed by an optionally signed digit string.
The result is the exact rational value denoted by the text. -/

def isAsciiWS (c : Char) : Bool :=
  c = ' ' || c = '\t' || c = '\n' || c = '\r' || c = '\x0b' || c = '\x0c'

/-- Remove underscores, then strip leading and trailing whitespace, as the
`Decimal` constructor does before grammar matching. -/
def decimalClean (l : List Char) : List Char :=
  (((l.filter (fun c => c ≠ '_')).dropWhile isAsciiWS).reverse.dropWhile isAsciiWS).reverse

/-- Split an optional leading sign off a character list. -/
def splitSign : List Char → Int × List Char
  | '+' :: rest => (1, rest)
  | '-' :: rest => (-1, rest)
  | l => (1, l)

/-- Numeric value of a digit string (most significant digit first). -/
def digitsVal (l : List Char) : Nat :=
  l.foldl (fun a c => a * 10 + (c.toNat - '0'.toNat)) 0

/-- Parse the digits-and-point part of a decimal numeral: returns the
scaled integer value and the number of fractional digits. -/
def parseMantissa (l : List Char) : Option (Nat × Nat) :=
  match l.span (fun c => c ≠ '.') with
  | (ip, []) =>
    if ip ≠ [] && ip.all Char.isDigit then some (digitsVal ip, 0) else none
  | (ip, _ :: fp) =>
    if fp.all (fun c => c ≠ '.' && c.isDigit) && ip.all Char.isDigit &&
        (ip ≠ [] || fp ≠ []) then
      some (digitsVal (ip ++ fp), fp.length)
    else none

/-- Parse the part after the mantissa: empty, or an exponent indicator
followed by an optionally signed nonempty digit string. -/
def parseExpPart : List Char → Option Int
  | [] => some 0
  | _ :: tail =>
    let (es, ed) := splitSign tail
    if ed ≠ [] && ed.all Char.isDigit then some (es * (digitsVal ed : Int))
    else none

/-- The exact rational `sign · x · 10^(e−k)` denoted by a decimal
numeral with sign `sign`, digit value `x`, `k` fractional digits and
exponent `e`, written as a single normalized fraction. -/
def decimalVal (sign : Int) (x k : Nat) (e : Int) : ℚ :=
  if 0 ≤ e then mkRat (sign * (x : Int) * (10 : Int) ^ e.toNat) (10 ^ k)
  else mkRat (sign * (x : Int)) (10 ^ k * 10 ^ (-e).toNat)

/-- The value of `Decimal(s)` as an exact rational, or `none` when the
string is not a well-formed (finite) decimal numeral. -/
def parseDecimal (s : String) : Option ℚ :=
  let l := decimalClean s.data
  let (sign, rest) := splitSign l
  let (mant, expPart) := rest.span (fun c => c ≠ 'e' && c ≠ 'E')
  match parseMantissa mant, parseExpPart expPart with
  | some (x, k), some e => some (decimalVal sign x k e)
  | _, _ => none

/-! ## Python `strptime` with format `%m/%d/%Y` -/

def isLeapYear (y : Nat) : Bool :=
  (y % 4 = 0 && y % 100 ≠ 0) || y % 400 = 0

def daysInMonth (y m : Nat) : Nat :=
  if m = 2 then (if isLeapYear y then 29 else 28)
  else if m = 4 || m = 6 || m = 9 || m = 11 then 30
  else 31

/-- All characters are decimal digits. -/
def allDigits (l : List Char) : Bool := l.all Char.isDigit

/-- Split a character list at every slash (the literal separators of the
`%m/%d/%Y` format). -/
def splitOnSlash : List Char → List (List Char)
  | [] => [[]]
  | '/' :: rest => [] :: splitOnSlash rest
  | c :: rest =>
    match splitOnSlash rest with
    | [] => [[c]]
    | p :: ps => (c :: p) :: ps

/-- `datetime.strptime(s, "%m/%d/%Y")`:  `%m` and `%d` match one or two
digits (values 1–12 and 1–31), `%Y` matches exactly four digits, the
separators are literal slashes, the whole string must be consumed, and
the resulting triple must be a valid proleptic-Gregorian calendar date
with year at least 1 (`datetime.MINYEAR`). -/
def strptimeMDY (s : String) : Option DateMDY :=
  match splitOnSlash s.data with
  | [ms, ds, ys] =>
    let m := digitsVal ms
    let d := digitsVal ds
    let y := digitsVal ys
    if allDigits ms && 1 ≤ ms.length && ms.length ≤ 2 && 1 ≤ m && m ≤ 12 &&
        allDigits ds && 1 ≤ ds.length && ds.length ≤ 2 && 1 ≤ d && d ≤ 31 &&
        allDigits ys && ys.length = 4 && 1 ≤ y &&
        d ≤ daysInMonth y m then
      some ⟨y, m, d⟩
    else none
  | _ => none

/-! ## The bond-name regular expression

`guessInstrumentForInvestmentName` tests the investment name with
`re.match(r'^.+\s\%\s.+$', name)`: at least one non-newline character,
a whitespace character, a literal percent sign, a whitespace character,
and at least one further non-newline character, where the unanchored
`$` also accepts a single trailing newline.  The embedding is the
declarative regex semantics: a search over every split position. -/

/-- The tail after the matched `\s%\s` core can satisfy `.+$`: a nonempty
run of non-newline characters, optionally followed by one final newline. -/
def bondTailOk : List Char → Bool
  | [] => false
  | c :: rest => c ≠ '\n' && ((c :: rest).dropLast.all fun x => x ≠ '\n')

/-- The regex matches with the first whitespace of `\s\%\s` at index `i`:
the nonempty prefix before `i` is matched by the leading `.+`. -/
def bondSplitAt (l : List Char) (i : Nat) : Bool :=
  match l.drop i with
  | w1 :: '%' :: w2 :: rest =>
    decide (1 ≤ i) && isAsciiWS w1 && isAsciiWS w2 &&
      ((l.take i).all fun c => c ≠ '\n') && bondTailOk rest
  | _ => false

/-- `re.match(r'^.+\s\%\s.+$', s)` succeeds. -/
def reBondMatch (s : String) : Bool :=
  (List.range s.data.length).any (bondSplitAt s.data)

/-- Declarative reading of the same regex, used to state claims: the
name splits into some text, a whitespace character, a percent sign, a
whitespace character and some text (with the trailing-newline allowance
of `$`). -/
def BondNameForm (s : String) : Prop :=
  ∃ a w1 w2 b t, s.data = a ++ w1 :: '%' :: w2 :: (b ++ t) ∧
    a ≠ [] ∧ (∀ c ∈ a, c ≠ '\n') ∧ isAsciiWS w1 ∧ isAsciiWS w2 ∧
    b ≠ [] ∧ (∀ c ∈ b, c ≠ '\n') ∧ (t = [] ∨ t = ['\n'])

/-- `guessInstrumentForInvestmentName` (vanguard.py lines 33–41): a name
matching the bond pattern becomes a `Bond` (symbol validation is off),
anything else a `Stock`. -/
def guessInstrumentForInvestmentName (name : String) : Instrument :=
  if reBondMatch name then Instrument.bond name Currency.USD
  else Instrument.stock name Currency.USD

/-! ## The csv section slicer (modelled from the spec, section 4.1) -/

/-- Modelled from the spec: `CSVSectionCriterion` of the
`csvsectionslicer` collaborator (spec section 3). -/
structure CSVSectionCriterion where
  startSectionRowMatch : List String
  endSectionRowMatch : List String
  rowFilter : List String → List String

/-- Modelled from the spec: `CSVSectionResult` — the filtered rows of one
matched section, in file order (spec section 3). -/
structure CSVSectionResult where
  rows : List (List String)

/-- Modelled from the spec: boundary matching is purely row-prefix based —
a row matches a pattern when its leading fields equal the pattern's
strings exactly (spec section 3, invariant). -/
def rowMatchesBoundary (pat row : List String) : Bool :=
  row.take pat.length == pat

/-- Modelled from the spec: spec section 4.1 steps 4–5 — once inside a
section, stop (without emitting) at a row matching a nonempty end
pattern, otherwise emit the filtered row; end of file finalizes. -/
def collectSection (crit : CSVSectionCriterion) : List (List String) → List (List String)
  | [] => []
  | row :: rest =>
    if crit.endSectionRowMatch ≠ [] && rowMatchesBoundary crit.endSectionRowMatch row then []
    else crit.rowFilter row :: collectSection crit rest

/-- Modelled from the spec: spec section 4.1 steps 2–3 and 6 — scan for
the start row (which is consumed, not emitted); a criterion that never
starts yields no rows. -/
def sliceSection (crit : CSVSectionCriterion) : List (List String) → List (List String)
  | [] => []
  | row :: rest =>
    if rowMatchesBoundary crit.startSectionRowMatch row then collectSection crit rest
    else sliceSection crit rest

/-- Modelled from the spec: `parseSectionsForCSV` — one result per
criterion, in input order; criteria are scanned independently (spec
section 4.1, contract and edge cases).  The csv framing layer (character
stream to rows) is the standard csv reader and is abstracted as the row
list input. -/
def parseSectionsForCSV (fileRows : List (List String))
    (criteria : List CSVSectionCriterion) : List CSVSectionResult :=
  criteria.map fun c => ⟨sliceSection c fileRows⟩

/-! ## The lenient row transformer (modelled from the spec, section 4.2) -/

/-- Row-level failures of the adapter (spec section 7 taxonomy):
named-tuple construction with the wrong arity, a malformed decimal
string, a malformed date, and the failed basis assertion. -/
inductive Err where
  | makeError
  | decimalError
  | dateError
  | assertionError
deriving DecidableEq, Repr

/-- Modelled from the spec: `lenientParse` of the `parsetools`
collaborator (spec section 4.2).  In strict mode the first conversion
failure propagates; in lenient mode failing items are dropped and the
successes keep their relative order.  Input items are `Except` values
because in the source the row records are built inside the generator
feeding the transformer: a failure of the source iterator itself
propagates in either mode. -/
def lenientParse {α β ε : Type} (transform : α → Except ε β) (lenient : Bool) :
    List (Except ε α) → Except ε (List β)
  | [] => .ok []
  | .error e :: _ => .error e
  | .ok x :: xs =>
    match transform x with
    | .ok y => (lenientParse transform lenient xs).map (y :: ·)
    | .error e =>
      if lenient then lenientParse transform lenient xs else .error e

/-! ## The adapter row records -/

structure VanguardPosition where
  investmentName : String
  symbol : String
  shares : String
  sharePrice : String
  totalValue : String
deriving DecidableEq, Repr

/-- `VanguardPosition._make(r)`: positional binding of exactly five
fields; any other arity raises. -/
def VanguardPosition.make : List String → Option VanguardPosition
  | [f1, f2, f3, f4, f5] => some ⟨f1, f2, f3, f4, f5⟩
  | _ => none

structure VanguardPositionAndActivity where
  position : VanguardPosition
  activity : List Activity
deriving DecidableEq

structure VanguardTransaction where
  tradeDate : String
  settlementDate : String
  transactionType : String
  transactionDescription : String
  investmentName : String
  symbol : String
  shares : String
  sharePrice : String
  principalAmount : String
  commissionFees : String
  netAmount : String
  accruedInterest : String
  accountType : String
deriving DecidableEq, Repr

/-- `VanguardTransaction._make(r)`: positional binding of exactly
thirteen fields; any other arity raises. -/
def VanguardTransaction.make : List String → Option VanguardTransaction
  | [f1, f2, f3, f4, f5, f6, f7, f8, f9, f10, f11, f12, f13] =>
    some ⟨f1, f2, f3, f4, f5, f6, f7, f8, f9, f10, f11, f12, f13⟩
  | _ => none

/-! ## The adapter conversions (vanguard.py) -/

/-- Instrument resolution shared by positions (lines 51–55) and
transactions (lines 117–121): a nonempty ticker symbol is an equity;
otherwise the instrument is guessed from the investment name. -/
def resolvedInstrument (symbol investmentName : String) : Instrument :=
  if symbol.length > 0 then Instrument.stock symbol Currency.USD
  else guessInstrumentForInvestmentName investmentName

/-- `parseVanguardPosition` (lines 49–65): resolve the instrument, parse
the share quantity, then require a realized basis from the already
parsed activity — the `assert` raises when the lookup returns nothing. -/
def parseVanguardPosition (rb : RealizedBasisFn) (p : VanguardPosition)
    (activity : List Activity) : Except Err Position :=
  match parseDecimal p.shares with
  | none => .error .decimalError
  | some qty =>
    match rb (resolvedInstrument p.symbol p.investmentName).symbol activity with
    | none => .error .assertionError
    | some realizedBasis =>
      .ok ⟨resolvedInstrument p.symbol p.investmentName, qty, realizedBasis⟩

/-- `parseVanguardPositionAndActivity` (lines 44–46). -/
def parseVanguardPositionAndActivity (rb : RealizedBasisFn)
    (vpb : VanguardPositionAndActivity) : Except Err Position :=
  parseVanguardPosition rb vpb.position vpb.activity

/-- The positions criterion (lines 72–75): start pattern
`["Account Number"]`, no end pattern, row filter `r[1:6]`. -/
def positionsCriterion : CSVSectionCriterion :=
  ⟨["Account Number"], [], fun r => (r.drop 1).take 5⟩

/-- `__parsePositions` (lines 68–89): slice the positions section, build
the row records (inside a fully forced `list(map(...))`, so an arity
failure raises before the lenient transform runs), pair each with the
activity list, and run the lenient transform. -/
def __parsePositions (fileRows : List (List String)) (activity : List Activity)
    (rb : RealizedBasisFn) (lenient : Bool) : Except Err (List Position) :=
  match parseSectionsForCSV fileRows [positionsCriterion] with
  | [] => .ok []
  | s :: _ =>
    match s.rows.mapM (fun r => (VanguardPosition.make r).elim (Except.error Err.makeError) Except.ok) with
    | .error e => .error e
    | .ok vanPositions =>
      let vanPosAndBases := vanPositions.map fun pos => VanguardPositionAndActivity.mk pos activity
      lenientParse (parseVanguardPositionAndActivity rb) lenient (vanPosAndBases.map Except.ok)

/-- The set of recognized transaction types (lines 141–144). -/
def validTransactionTypes : List String :=
  ["Buy", "Sell", "Reinvestment", "Corp Action (Redemption)", "Transfer (outgoing)"]

/-- The fixed type-to-flags lookup table (lines 149–155).  The final
branch is unreachable: the table is only consulted after the membership
test on `validTransactionTypes`. -/
def flagsByTransactionType (ty : String) : TradeFlags :=
  if ty = "Buy" then TradeFlags.OPEN
  else if ty = "Sell" then TradeFlags.CLOSE
  else if ty = "Reinvestment" then TradeFlags.OPEN.or TradeFlags.DRIP
  else if ty = "Corp Action (Redemption)" then TradeFlags.CLOSE
  else if ty = "Transfer (outgoing)" then TradeFlags.CLOSE
  else TradeFlags.NONE

/-- `forceParseVanguardTransaction` (lines 115–137): resolve the
instrument, parse the fee, principal and share decimals, negate the
share quantity for a "Redemption" description, parse the trade date,
and build the `Trade`. -/
def forceParseVanguardTransaction (t : VanguardTransaction)
    (flags : TradeFlags) : Except Err Trade :=
  match parseDecimal t.commissionFees with
  | none => .error .decimalError
  | some totalFees =>
    match parseDecimal t.principalAmount with
    | none => .error .decimalError
    | some amount =>
      match parseDecimal t.shares with
      | none => .error .decimalError
      | some shares0 =>
        match strptimeMDY t.tradeDate with
        | none => .error .dateError
        | some date =>
          .ok ⟨date, resolvedInstrument t.symbol t.investmentName,
               (if t.transactionDescription = "Redemption"
                then shares0 * (-1) else shares0),
               ⟨Currency.USD, amount⟩, ⟨Currency.USD, totalFees⟩, flags⟩

/-- `parseVanguardTransaction` (lines 140–158): an unrecognized
transaction type yields a null result without touching any other field;
a recognized one is converted with the flags from the lookup table. -/
def parseVanguardTransaction (t : VanguardTransaction) : Except Err (Option Trade) :=
  if !(validTransactionTypes.contains t.transactionType) then .ok none
  else (forceParseVanguardTransaction t (flagsByTransactionType t.transactionType)).map some

/-- The transactions criterion (lines 164–167): start pattern
`["Account Number", "Trade Date"]`, no end pattern, row filter `r[1:-1]`. -/
def transactionsCriterion : CSVSectionCriterion :=
  ⟨["Account Number", "Trade Date"], [], fun r => (r.drop 1).dropLast⟩

/-- The transform-and-filter step of `__parseTransactions` (lines
174–180): run the lenient transform over the row records and keep only
the non-null results, in order — `list(filter(None, lenientParse(...)))`. -/
def filteredParse (lenient : Bool)
    (items : List (Except Err VanguardTransaction)) : Except Err (List Activity) :=
  (lenientParse parseVanguardTransaction lenient items).map
    fun l => l.reduceOption.map Activity.trade

/-- `__parseTransactions` (lines 162–180): slice the transactions
section, build each row record inside the generator feeding the lenient
transform, convert, and filter out the null results.  The surviving
trades are the activity list. -/
def __parseTransactions (fileRows : List (List String)) (lenient : Bool) :
    Except Err (List Activity) :=
  match parseSectionsForCSV fileRows [transactionsCriterion] with
  | [] => .ok []
  | s :: _ =>
    filteredParse lenient
      (s.rows.map fun r => (VanguardTransaction.make r).elim (Except.error Err.makeError) Except.ok)

structure PositionsAndActivity where
  positions : List Position
  activity : List Activity
deriving DecidableEq

/-- `parsePositionsAndActivity` (lines 92–96): transactions first, then
positions with the parsed activity for basis lookups. -/
def parsePositionsAndActivity (fileRows : List (List String))
    (rb : RealizedBasisFn) (lenient : Bool) : Except Err PositionsAndActivity :=
  match __parseTransactions fileRows lenient with
  | .error e => .error e
  | .ok activity =>
    match __parsePositions fileRows activity rb lenient with
    | .error e => .error e
    | .ok positions => .ok ⟨positions, activity⟩

deriving instance DecidableEq for Except

/-! ## Concrete sample data (used by witnesses below) -/

/-- A recognized "Buy" transaction row record. -/
def buyRow : VanguardTransaction :=
  ⟨"01/02/2020", "01/04/2020", "Buy", "Buy", "ABC CORP", "ABC", "10",
   "100.00", "-1000.00", "0.00", "-1000.00", "0.00", "CASH"⟩

/-- The trade produced from `buyRow`. -/
def buyTrade : Trade :=
  ⟨⟨2020, 1, 2⟩, Instrument.stock "ABC" Currency.USD, 10,
   ⟨Currency.USD, -1000⟩, ⟨Currency.USD, 0⟩, TradeFlags.OPEN⟩

/-- A row with the unrecognized type "Fee"; its other fields are
deliberately malformed to show they are never parsed. -/
def feeRow : VanguardTransaction :=
  ⟨"junkdate", "x", "Fee", "desc", "name", "sym", "notanumber",
   "", "", "", "", "", ""⟩

/-- A transactions-section header row. -/
def txHeaderRow : List String :=
  ["Account Number", "Trade Date", "Settlement Date", "Transaction Type",
   "Transaction Description", "Investment Name", "Symbol", "Shares",
   "Share Price", "Principal Amount", "Commission Fees", "Net Amount",
   "Accrued Interest", "Account Type"]

/-- The raw csv row corresponding to `buyRow` (15 columns; the leading
account number and the trailing blank column are dropped by the filter). -/
def buyRawRow : List String :=
  ["ACCT123", "01/02/2020", "01/04/2020", "Buy", "Buy", "ABC CORP", "ABC",
   "10", "100.00", "-1000.00", "0.00", "-1000.00", "0.00", "CASH", ""]

/-- A small transactions file: a non-matching preamble row, the header,
one "Buy" row. -/
def sampleTxFile : List (List String) :=
  [["Some", "Header"], txHeaderRow, buyRawRow]

/-- A "Buy" row with a zero shares field and a non-"Redemption"
description. -/
def zeroRow : VanguardTransaction :=
  ⟨"01/02/2020", "01/04/2020", "Buy", "Buy", "ABC CORP", "ABC", "0",
   "100.00", "0.00", "0.00", "0.00", "0.00", "CASH"⟩

/-- The trade produced from `zeroRow`. -/
def zeroTrade : Trade :=
  ⟨⟨2020, 1, 2⟩, Instrument.stock "ABC" Currency.USD, 0,
   ⟨Currency.USD, 0⟩, ⟨Currency.USD, 0⟩, TradeFlags.OPEN⟩

/-- A "Sell" row whose description is exactly "Redemption". -/
def redemptionRow : VanguardTransaction :=
  ⟨"01/02/2020", "01/04/2020", "Sell", "Redemption", "ABC CORP", "ABC",
   "10", "100.00", "1000.00", "0.00", "1000.00", "0.00", "CASH"⟩

/-- The trade produced from `redemptionRow`: ten shares negated. -/
def redemptionTrade : Trade :=
  ⟨⟨2020, 1, 2⟩, Instrument.stock "ABC" Currency.USD, -10,
   ⟨Currency.USD, 1000⟩, ⟨Currency.USD, 0⟩, TradeFlags.CLOSE⟩

/-- A realized-basis collaborator that finds nothing for any symbol. -/
def rbNone : RealizedBasisFn := fun _ _ => none

/-- A position row record for the equity "ABC". -/
def abcPosition : VanguardPosition :=
  ⟨"ABC CORP", "ABC", "10", "100.00", "1000.00"⟩

/-- A file with no row matching either section's start pattern. -/
def noHeaderFile : List (List String) :=
  [["Foo", "Bar"], ["Baz"]]

/-- A recognized "Buy" row whose trade date is not in %m/%d/%Y form. -/
def badDateRow : VanguardTransaction :=
  ⟨"2020-01-02", "01/04/2020", "Buy", "Buy", "ABC CORP", "ABC", "10",
   "100.00", "-1000.00", "0.00", "-1000.00", "0.00", "CASH"⟩

/-! ## Helper lemmas -/

theorem lenientParse_cons_ok {α β ε : Type} (tf : α → Except ε β) (m : Bool)
    {x : α} {y : β} (xs : List (Except ε α)) (h : tf x = .ok y) :
    lenientParse tf m (.ok x :: xs) = (lenientParse tf m xs).map (y :: ·) := by
  simp [lenientParse, h]

theorem lenientParse_cons_err_true {α β ε : Type} (tf : α → Except ε β)
    {x : α} {e : ε} (xs : List (Except ε α)) (h : tf x = .error e) :
    lenientParse tf true (.ok x :: xs) = lenientParse tf true xs := by
  simp [lenientParse, h]

theorem lenientParse_cons_err_false {α β ε : Type} (tf : α → Except ε β)
    {x : α} {e : ε} (xs : List (Except ε α)) (h : tf x = .error e) :
    lenientParse tf false (.ok x :: xs) = .error e := by
  simp [lenientParse, h]

theorem lenientParse_cons_iterr {α β ε : Type} (tf : α → Except ε β) (m : Bool)
    (e : ε) (xs : List (Except ε α)) :
    lenientParse tf m (.error e :: xs) = .error e := by
  simp [lenientParse]

theorem filteredParse_cons_some {t : VanguardTransaction} {v : Trade}
    (m : Bool) (items : List (Except Err VanguardTransaction))
    (h : parseVanguardTransaction t = .ok (some v)) :
    filteredParse m (.ok t :: items) =
      (filteredParse m items).map (Activity.trade v :: ·) := by
  unfold filteredParse
  rw [lenientParse_cons_ok _ _ items h]
  cases lenientParse parseVanguardTransaction m items <;>
    simp [Except.map]

theorem filteredParse_cons_none {t : VanguardTransaction}
    (m : Bool) (items : List (Except Err VanguardTransaction))
    (h : parseVanguardTransaction t = .ok none) :
    filteredParse m (.ok t :: items) = filteredParse m items := by
  unfold filteredParse
  rw [lenientParse_cons_ok _ _ items h]
  cases lenientParse parseVanguardTransaction m items <;>
    simp [Except.map]

theorem filteredParse_cons_err_true {t : VanguardTransaction} {e : Err}
    (items : List (Except Err VanguardTransaction))
    (h : parseVanguardTransaction t = .error e) :
    filteredParse true (.ok t :: items) = filteredParse true items := by
  unfold filteredParse
  rw [lenientParse_cons_err_true _ items h]

theorem filteredParse_cons_err_false {t : VanguardTransaction} {e : Err}
    (items : List (Except Err VanguardTransaction))
    (h : parseVanguardTransaction t = .error e) :
    filteredParse false (.ok t :: items) = .error e := by
  unfold filteredParse
  rw [lenientParse_cons_err_false _ items h]
  rfl

theorem filteredParse_cons_iterr (m : Bool) (e : Err)
    (items : List (Except Err VanguardTransaction)) :
    filteredParse m (.error e :: items) = .error e := by
  unfold filteredParse
  rw [lenientParse_cons_iterr]
  rfl

theorem parseVanguardTransaction_ok_some {t : VanguardTransaction} {tr : Trade}
    (h : parseVanguardTransaction t = .ok (some tr)) :
    validTransactionTypes.contains t.transactionType = true ∧
    forceParseVanguardTransaction t (flagsByTransactionType t.transactionType) = .ok tr := by
  unfold parseVanguardTransaction at h
  cases hc : validTransactionTypes.contains t.transactionType with
  | false => rw [hc] at h; simp at h
  | true =>
    rw [hc] at h
    simp only [Bool.not_true, Bool.false_eq_true, if_false] at h
    cases hf : forceParseVanguardTransaction t (flagsByTransactionType t.transactionType) with
    | error e => rw [hf] at h; simp [Except.map] at h
    | ok v =>
      rw [hf] at h
      simp only [Except.map, Except.ok.injEq, Option.some.injEq] at h
      exact ⟨rfl, by rw [h]⟩

theorem forceParse_ok_inv {t : VanguardTransaction} {flags : TradeFlags} {tr : Trade}
    (h : forceParseVanguardTransaction t flags = .ok tr) :
    ∃ qf qa qs d, parseDecimal t.commissionFees = some qf ∧
      parseDecimal t.principalAmount = some qa ∧
      parseDecimal t.shares = some qs ∧
      strptimeMDY t.tradeDate = some d ∧
      tr = ⟨d, resolvedInstrument t.symbol t.investmentName,
            (if t.transactionDescription = "Redemption" then qs * (-1) else qs),
            ⟨Currency.USD, qa⟩, ⟨Currency.USD, qf⟩, flags⟩ := by
  unfold forceParseVanguardTransaction at h
  rcases hf : parseDecimal t.commissionFees with _ | qf <;> rw [hf] at h
  · simp at h
  rcases ha : parseDecimal t.principalAmount with _ | qa <;> rw [ha] at h
  · simp at h
  rcases hs : parseDecimal t.shares with _ | qs <;> rw [hs] at h
  · simp at h
  rcases hd : strptimeMDY t.tradeDate with _ | d <;> rw [hd] at h
  · simp at h
  simp only [Except.ok.injEq] at h
  exact ⟨qf, qa, qs, d, rfl, rfl, rfl, rfl, h.symm⟩


/-! ## Claims about transaction conversion -/

/-- Claim C4: a transaction row whose type string is not one of the five
recognized types converts to a null result (`Except.ok none`) without
any other field being examined and without any error, and the null
result is filtered out of the activity list in both lenient and strict
mode: the transform-and-filter pipeline on any item list containing such
a row equals the pipeline on the list with the row removed. -/
theorem claim_c4_unrecognized_type (t : VanguardTransaction)
    (h : validTransactionTypes.contains t.transactionType = false) :
    parseVanguardTransaction t = Except.ok none ∧
    ∀ (lenient : Bool) (pre post : List (Except Err VanguardTransaction)),
      filteredParse lenient (pre ++ Except.ok t :: post) =
        filteredParse lenient (pre ++ post) := by
  have hnull : parseVanguardTransaction t = Except.ok none := by
    unfold parseVanguardTransaction
    rw [h]
    rfl
  refine ⟨hnull, fun lenient pre post => ?_⟩
  induction pre with
  | nil => exact filteredParse_cons_none lenient post hnull
  | cons a pre ih =>
    cases a with
    | error e =>
      simp only [List.cons_append, filteredParse_cons_iterr]
    | ok a =>
      rcases ha : parseVanguardTransaction a with e | v
      · cases lenient with
        | true => simp only [List.cons_append, filteredParse_cons_err_true _ ha, ih]
        | false => simp only [List.cons_append, filteredParse_cons_err_false _ ha]
      · cases v with
        | none => simp only [List.cons_append, filteredParse_cons_none _ _ ha, ih]
        | some v => simp only [List.cons_append, filteredParse_cons_some _ _ ha, ih]

/-- Witness for C4: the "Fee" row (with deliberately malformed date and
number fields) passes through as a filtered null in strict mode. -/
theorem claim_c4_unrecognized_type_witness :
    parseVanguardTransaction feeRow = Except.ok none ∧
    filteredParse false [Except.ok feeRow] = filteredParse false [] := by
  have h := claim_c4_unrecognized_type feeRow (by decide)
  exact ⟨h.1, h.2 false [] []⟩

/-- Claim C5: the flags of every produced trade come from the fixed
lookup table: Buy ↦ OPEN, Sell ↦ CLOSE, Reinvestment ↦ OPEN|DRIP,
Corp Action (Redemption) ↦ CLOSE, Transfer (outgoing) ↦ CLOSE. -/
theorem claim_c5_flag_lookup_table (t : VanguardTransaction) (tr : Trade)
    (h : parseVanguardTransaction t = Except.ok (some tr)) :
    (t.transactionType = "Buy" → tr.flags = TradeFlags.OPEN) ∧
    (t.transactionType = "Sell" → tr.flags = TradeFlags.CLOSE) ∧
    (t.transactionType = "Reinvestment" → tr.flags = TradeFlags.OPEN.or TradeFlags.DRIP) ∧
    (t.transactionType = "Corp Action (Redemption)" → tr.flags = TradeFlags.CLOSE) ∧
    (t.transactionType = "Transfer (outgoing)" → tr.flags = TradeFlags.CLOSE) := by
  obtain ⟨-, hforce⟩ := parseVanguardTransaction_ok_some h
  obtain ⟨qf, qa, qs, d, -, -, -, -, htr⟩ := forceParse_ok_inv hforce
  have hflags : tr.flags = flagsByTransactionType t.transactionType := by rw [htr]
  refine ⟨fun hty => ?_, fun hty => ?_, fun hty => ?_, fun hty => ?_, fun hty => ?_⟩ <;>
    rw [hflags, hty] <;> decide

/-- Witness for C5: the "Buy" row produces exactly one trade and its
flags are OPEN. -/
theorem claim_c5_flag_lookup_table_witness :
    parseVanguardTransaction buyRow = Except.ok (some buyTrade) ∧
    buyTrade.flags = TradeFlags.OPEN := by
  refine ⟨by decide, ?_⟩
  exact (claim_c5_flag_lookup_table buyRow buyTrade (by decide)).1 rfl

theorem filteredParse_ok_members (items : List (Except Err VanguardTransaction))
    (m : Bool) (acts : List Activity) (h : filteredParse m items = Except.ok acts) :
    ∀ a ∈ acts, ∃ tr, a = Activity.trade tr := by
  induction items generalizing acts with
  | nil =>
    simp only [filteredParse, lenientParse, Except.map, List.reduceOption_nil,
      List.map_nil, Except.ok.injEq] at h
    subst h
    intro a ha
    cases ha
  | cons it items ih =>
    cases it with
    | error e => rw [filteredParse_cons_iterr] at h; cases h
    | ok t =>
      rcases htf : parseVanguardTransaction t with e | v
      · cases m with
        | true =>
          rw [filteredParse_cons_err_true _ htf] at h
          exact ih _ h
        | false =>
          rw [filteredParse_cons_err_false _ htf] at h
          cases h
      · cases v with
        | none =>
          rw [filteredParse_cons_none _ _ htf] at h
          exact ih _ h
        | some v =>
          rw [filteredParse_cons_some _ _ htf] at h
          rcases hres : filteredParse m items with e | l
          · rw [hres] at h; simp [Except.map] at h
          · rw [hres] at h
            simp only [Except.map, Except.ok.injEq] at h
            subst h
            intro a ha
            rcases List.mem_cons.mp ha with rfl | ha'
            · exact ⟨v, rfl⟩
            · exact ih l hres a ha'

/-- Claim C10: every record in the activity list returned by the
transactions parse is a `Trade`; the adapter never produces a
`DividendPayment`, although the `Activity` type admits one. -/
theorem claim_c10_only_trades (fileRows : List (List String)) (lenient : Bool)
    (acts : List Activity) (h : __parseTransactions fileRows lenient = Except.ok acts) :
    ∀ a ∈ acts, ∃ tr, a = Activity.trade tr := by
  exact filteredParse_ok_members _ lenient acts h

/-- Witness for C10: a concrete file whose parse yields one activity
record, which is a trade. -/
theorem claim_c10_only_trades_witness :
    __parseTransactions sampleTxFile false = Except.ok [Activity.trade buyTrade] ∧
    ∃ tr, Activity.trade buyTrade = Activity.trade tr := by
  have hrun : __parseTransactions sampleTxFile false = Except.ok [Activity.trade buyTrade] := by
    decide
  exact ⟨hrun, claim_c10_only_trades sampleTxFile false [Activity.trade buyTrade] hrun
    (Activity.trade buyTrade) (List.mem_singleton.mpr rfl)⟩

/-- Claim C3 as stated is false on the code: for a successfully
converted row with parsed shares value 0 and a description other than
"Redemption" (here the `zeroRow` "Buy"), the trade quantity 0 equals the
negation of the parsed shares value even though the description is not
"Redemption", so the "only if" direction of the claimed equivalence
fails. -/
theorem claim_c3_counterexample :
    ¬ (∀ (t : VanguardTransaction) (tr : Trade) (q : ℚ),
        parseVanguardTransaction t = Except.ok (some tr) →
        parseDecimal t.shares = some q →
        ((tr.quantity = -q ↔ t.transactionDescription = "Redemption") ∧
         (t.transactionDescription ≠ "Redemption" → tr.quantity = q))) := by
  intro hclaim
  have h := hclaim zeroRow zeroTrade 0 (by decide) (by decide)
  have hred : zeroRow.transactionDescription = "Redemption" := h.1.mp (by decide)
  exact absurd hred (by decide)

/-- Claim C3 (amended): the quantity of a successfully converted row is
the negation of the parsed shares value when the description is exactly
"Redemption" and is the parsed shares value (sign preserved) for every
other description; consequently the claimed "if and only if" holds for
every row whose parsed shares value is nonzero. -/
theorem claim_c3_redemption_negation (t : VanguardTransaction) (tr : Trade) (q : ℚ)
    (h : parseVanguardTransaction t = Except.ok (some tr))
    (hq : parseDecimal t.shares = some q) :
    tr.quantity = (if t.transactionDescription = "Redemption" then -q else q) ∧
    (q ≠ 0 → (tr.quantity = -q ↔ t.transactionDescription = "Redemption")) := by
  obtain ⟨-, hforce⟩ := parseVanguardTransaction_ok_some h
  obtain ⟨qf, qa, qs, d, -, -, hqs, -, htr⟩ := forceParse_ok_inv hforce
  rw [hq] at hqs
  obtain rfl : q = qs := Option.some.inj hqs
  have hquant : tr.quantity =
      if t.transactionDescription = "Redemption" then q * (-1) else q := by
    rw [htr]
  constructor
  · rw [hquant]
    by_cases hdesc : t.transactionDescription = "Redemption" <;>
      simp [hdesc, mul_neg_one]
  · intro hq0
    rw [hquant]
    by_cases hdesc : t.transactionDescription = "Redemption"
    · simp [hdesc, mul_neg_one]
    · simp only [hdesc, if_false, iff_false]
      exact fun heq => hq0 (CharZero.eq_neg_self_iff.mp heq)

set_option maxRecDepth 8000 in
/-- Witness for the amended C3: the "Redemption" row with shares "10"
yields quantity −10, and for the nonzero parsed value the equivalence
holds. -/
theorem claim_c3_redemption_negation_witness :
    parseVanguardTransaction redemptionRow = Except.ok (some redemptionTrade) ∧
    parseDecimal redemptionRow.shares = some 10 ∧
    redemptionTrade.quantity =
      (if redemptionRow.transactionDescription = "Redemption" then -(10 : ℚ) else 10) ∧
    ((10 : ℚ) ≠ 0 →
      (redemptionTrade.quantity = -(10 : ℚ) ↔
        redemptionRow.transactionDescription = "Redemption")) := by
  have hrun : parseVanguardTransaction redemptionRow = Except.ok (some redemptionTrade) := by
    with_unfolding_all decide
  have h := claim_c3_redemption_negation redemptionRow redemptionTrade 10 hrun (by decide)
  exact ⟨hrun, by decide, h.1, h.2⟩

theorem bondTailOk_iff (l : List Char) :
    bondTailOk l = true ↔
      ∃ b t, l = b ++ t ∧ b ≠ [] ∧ (∀ c ∈ b, c ≠ '\n') ∧ (t = [] ∨ t = ['\n']) := by
  constructor
  · intro h
    cases l with
    | nil => simp [bondTailOk] at h
    | cons c rest =>
      simp only [bondTailOk, Bool.and_eq_true, decide_eq_true_eq, List.all_eq_true] at h
      obtain ⟨hc, hall⟩ := h
      by_cases hlast : (c :: rest).getLast (List.cons_ne_nil c rest) = '\n'
      · refine ⟨(c :: rest).dropLast, ['\n'], ?_, ?_, fun x hx => hall x hx, Or.inr rfl⟩
        · conv_lhs => rw [← List.dropLast_concat_getLast (List.cons_ne_nil c rest)]
          rw [hlast]
        · cases rest with
          | nil =>
            exfalso
            apply hc
            simpa using hlast
          | cons d ds => simp
      · refine ⟨c :: rest, [], (List.append_nil _).symm, List.cons_ne_nil c rest, ?_, Or.inl rfl⟩
        intro x hx
        rw [← List.dropLast_concat_getLast (List.cons_ne_nil c rest)] at hx
        rcases List.mem_append.mp hx with hx1 | hx2
        · exact hall x hx1
        · have hxl : x = (c :: rest).getLast (List.cons_ne_nil c rest) := by
            simpa using hx2
          rw [hxl]
          exact hlast
  · rintro ⟨b, t, rfl, hb, hball, ht | ht⟩
    · subst ht
      cases b with
      | nil => exact absurd rfl hb
      | cons c bs =>
        simp only [List.append_nil, bondTailOk, Bool.and_eq_true, decide_eq_true_eq,
          List.all_eq_true]
        exact ⟨hball c (by simp), fun x hx => hball x (List.dropLast_subset _ hx)⟩
    · subst ht
      cases b with
      | nil => exact absurd rfl hb
      | cons c bs =>
        simp only [List.cons_append, bondTailOk, Bool.and_eq_true, decide_eq_true_eq,
          List.all_eq_true]
        refine ⟨hball c (by simp), ?_⟩
        intro x hx
        rw [(List.cons_append c bs ['\n']).symm, List.dropLast_concat] at hx
        exact hball x hx

theorem reBondMatch_iff (s : String) : reBondMatch s = true ↔ BondNameForm s := by
  unfold reBondMatch BondNameForm
  rw [List.any_eq_true]
  constructor
  · rintro ⟨i, hmem, hsplit⟩
    rw [List.mem_range] at hmem
    unfold bondSplitAt at hsplit
    split at hsplit
    next w1 w2 rest heq =>
      simp only [Bool.and_eq_true, decide_eq_true_eq, List.all_eq_true] at hsplit
      obtain ⟨⟨⟨⟨hi, hw1⟩, hw2⟩, htake⟩, htail⟩ := hsplit
      obtain ⟨b, t, hbt, hb, hball, ht⟩ := (bondTailOk_iff rest).mp htail
      refine ⟨s.data.take i, w1, w2, b, t, ?_, ?_, fun c hc => htake c hc,
        hw1, hw2, hb, hball, ht⟩
      · conv_lhs => rw [← List.take_append_drop i s.data]
        rw [heq, hbt]
      · have hlen : (s.data.take i).length = i := by
          rw [List.length_take]
          omega
        intro hnil
        rw [hnil] at hlen
        simp only [List.length_nil] at hlen
        omega
    next =>
      cases hsplit
  · rintro ⟨a, w1, w2, b, t, hdecomp, ha, haall, hw1, hw2, hb, hball, ht⟩
    refine ⟨a.length, ?_, ?_⟩
    · rw [List.mem_range, hdecomp]
      simp only [List.length_append, List.length_cons]
      omega
    · unfold bondSplitAt
      have hdrop : s.data.drop a.length = w1 :: '%' :: w2 :: (b ++ t) := by
        rw [hdecomp]
        exact List.drop_left a _
      have htake : s.data.take a.length = a := by
        rw [hdecomp]
        exact List.take_left a _
      rw [hdrop]
      split
      next w1x w2x restx heq =>
        injection heq with h1 heq2
        injection heq2 with h2 heq3
        injection heq3 with h3 h4
        subst h1
        subst h3
        subst h4
        simp only [Bool.and_eq_true, decide_eq_true_eq, List.all_eq_true]
        refine ⟨⟨⟨⟨?_, hw1⟩, hw2⟩, ?_⟩, ?_⟩
        · cases a with
          | nil => exact absurd rfl ha
          | cons x xs => simp
        · intro c hc
          rw [htake] at hc
          exact haall c hc
        · exact (bondTailOk_iff _).mpr ⟨b, t, rfl, hb, hball, ht⟩
      next h =>
        exact (h w1 w2 (b ++ t) rfl).elim

theorem parseVanguardPosition_ok_inv {rb : RealizedBasisFn} {p : VanguardPosition}
    {activity : List Activity} {pos : Position}
    (h : parseVanguardPosition rb p activity = Except.ok pos) :
    ∃ q basis, parseDecimal p.shares = some q ∧
      rb (resolvedInstrument p.symbol p.investmentName).symbol activity = some basis ∧
      pos = ⟨resolvedInstrument p.symbol p.investmentName, q, basis⟩ := by
  unfold parseVanguardPosition at h
  rcases hq : parseDecimal p.shares with _ | q <;> rw [hq] at h
  · simp at h
  rcases hrb : rb (resolvedInstrument p.symbol p.investmentName).symbol activity with _ | basis <;>
    rw [hrb] at h
  · simp at h
  simp only [Except.ok.injEq] at h
  exact ⟨q, basis, rfl, rfl, h.symm⟩

/-- Claim C2: instrument resolution.  A nonempty symbol field yields an
equity with that symbol, for transaction and position rows alike; an
empty symbol field defers to the investment-name guess, which yields a
bond exactly when the name has the shape "text, whitespace, percent
sign, whitespace, text" (the X % Y pattern of the source regex) and an
equity with the name as symbol otherwise. -/
theorem claim_c2_instrument_inference :
    (∀ name : String,
      (guessInstrumentForInvestmentName name = Instrument.bond name Currency.USD ↔
        BondNameForm name) ∧
      (¬ BondNameForm name →
        guessInstrumentForInvestmentName name = Instrument.stock name Currency.USD)) ∧
    (∀ (t : VanguardTransaction) (flags : TradeFlags) (tr : Trade),
      forceParseVanguardTransaction t flags = Except.ok tr →
      (t.symbol.length > 0 → tr.instrument = Instrument.stock t.symbol Currency.USD) ∧
      (t.symbol.length = 0 →
        tr.instrument = guessInstrumentForInvestmentName t.investmentName)) ∧
    (∀ (rb : RealizedBasisFn) (p : VanguardPosition) (activity : List Activity)
      (pos : Position),
      parseVanguardPosition rb p activity = Except.ok pos →
      (p.symbol.length > 0 → pos.instrument = Instrument.stock p.symbol Currency.USD) ∧
      (p.symbol.length = 0 →
        pos.instrument = guessInstrumentForInvestmentName p.investmentName)) := by
  have hres : ∀ symbol name : String,
      (symbol.length > 0 → resolvedInstrument symbol name = Instrument.stock symbol Currency.USD) ∧
      (symbol.length = 0 → resolvedInstrument symbol name = guessInstrumentForInvestmentName name) := by
    intro symbol name
    constructor
    · intro hpos
      unfold resolvedInstrument
      rw [if_pos hpos]
    · intro hzero
      unfold resolvedInstrument
      rw [if_neg (by omega)]
  refine ⟨?_, ?_, ?_⟩
  · intro name
    by_cases hm : reBondMatch name = true
    · constructor
      · constructor
        · intro _
          exact (reBondMatch_iff name).mp hm
        · intro _
          unfold guessInstrumentForInvestmentName
          rw [if_pos hm]
      · intro hn
        exact absurd ((reBondMatch_iff name).mp hm) hn
    · have hguess : guessInstrumentForInvestmentName name = Instrument.stock name Currency.USD := by
        unfold guessInstrumentForInvestmentName
        rw [if_neg hm]
      constructor
      · rw [hguess]
        constructor
        · intro h
          exact absurd h (by simp)
        · intro hb
          exact absurd ((reBondMatch_iff name).mpr hb) hm
      · intro _
        exact hguess
  · intro t flags tr h
    obtain ⟨qf, qa, qs, d, -, -, -, -, htr⟩ := forceParse_ok_inv h
    have hinst : tr.instrument = resolvedInstrument t.symbol t.investmentName := by
      rw [htr]
    exact ⟨fun hp => by rw [hinst, (hres t.symbol t.investmentName).1 hp],
           fun hz => by rw [hinst, (hres t.symbol t.investmentName).2 hz]⟩
  · intro rb p activity pos h
    obtain ⟨q, basis, -, -, hpos⟩ := parseVanguardPosition_ok_inv h
    have hinst : pos.instrument = resolvedInstrument p.symbol p.investmentName := by
      rw [hpos]
    exact ⟨fun hp => by rw [hinst, (hres p.symbol p.investmentName).1 hp],
           fun hz => by rw [hinst, (hres p.symbol p.investmentName).2 hz]⟩

/-- Witness for C2: "US TREAS 2.5 % 2030" is inferred as a bond and has
the X % Y shape; "ABC Corp" is inferred as an equity with the name as
its symbol and does not have the shape; the "Buy" row with nonempty
symbol "ABC" resolves to the equity with symbol "ABC". -/
theorem claim_c2_instrument_inference_witness :
    guessInstrumentForInvestmentName "US TREAS 2.5 % 2030" =
      Instrument.bond "US TREAS 2.5 % 2030" Currency.USD ∧
    BondNameForm "US TREAS 2.5 % 2030" ∧
    guessInstrumentForInvestmentName "ABC Corp" =
      Instrument.stock "ABC Corp" Currency.USD ∧
    ¬ BondNameForm "ABC Corp" ∧
    buyTrade.instrument = Instrument.stock "ABC" Currency.USD := by
  refine ⟨by decide, ?_, by decide, ?_, ?_⟩
  · exact (claim_c2_instrument_inference.1 "US TREAS 2.5 % 2030").1.mp (by decide)
  · intro hb
    have hbond := (claim_c2_instrument_inference.1 "ABC Corp").1.mpr hb
    exact absurd hbond (by decide)
  · exact (claim_c2_instrument_inference.2.1 buyRow TradeFlags.OPEN buyTrade
      (by decide)).1 (by decide)

theorem lenientParse_drop_failed {α β ε : Type} (tf : α → Except ε β) {x : α} {e : ε}
    (h : tf x = .error e) (pre post : List (Except ε α)) :
    lenientParse tf true (pre ++ .ok x :: post) = lenientParse tf true (pre ++ post) := by
  induction pre with
  | nil => exact lenientParse_cons_err_true tf post h
  | cons a pre ih =>
    cases a with
    | error g => simp only [List.cons_append, lenientParse_cons_iterr]
    | ok a =>
      rcases ha : tf a with g | y
      · simp only [List.cons_append, lenientParse_cons_err_true tf _ ha, ih]
      · simp only [List.cons_append, lenientParse_cons_ok tf true _ ha, ih]

theorem lenientParse_strict_abort {α β ε : Type} (tf : α → Except ε β) {x : α} {e : ε}
    (h : tf x = .error e) (pre post : List (Except ε α))
    (hpre : ∀ it ∈ pre, ∃ a y, it = Except.ok a ∧ tf a = Except.ok y) :
    lenientParse tf false (pre ++ .ok x :: post) = .error e := by
  induction pre with
  | nil => exact lenientParse_cons_err_false tf post h
  | cons it pre ih =>
    obtain ⟨a, y, rfl, hay⟩ := hpre it (List.mem_cons_self it pre)
    rw [List.cons_append, lenientParse_cons_ok tf false _ hay,
      ih fun z hz => hpre z (List.mem_cons_of_mem _ hz)]
    rfl

/-- Claim C1: a position row whose resolved instrument symbol has no
realized basis in the already-parsed activity list fails row conversion
(row-level failure), and the caller-supplied lenient/strict flag — not a
mode-independent hard stop — governs the outcome: under lenient mode the
row is dropped and the remaining rows parse on; under strict mode the
first such failure aborts the parse and surfaces that row's error. -/
theorem claim_c1_missing_basis_mode (rb : RealizedBasisFn) (activity : List Activity)
    (p : VanguardPosition)
    (hnone : rb (resolvedInstrument p.symbol p.investmentName).symbol activity = none) :
    (∃ e, parseVanguardPosition rb p activity = Except.error e) ∧
    (∀ pre post : List VanguardPosition,
      lenientParse (parseVanguardPositionAndActivity rb) true
          ((pre ++ p :: post).map fun q => Except.ok ⟨q, activity⟩) =
        lenientParse (parseVanguardPositionAndActivity rb) true
          ((pre ++ post).map fun q => Except.ok ⟨q, activity⟩)) ∧
    (∀ pre post : List VanguardPosition,
      (∀ q ∈ pre, ∃ v, parseVanguardPosition rb q activity = Except.ok v) →
      ∃ e, parseVanguardPosition rb p activity = Except.error e ∧
        lenientParse (parseVanguardPositionAndActivity rb) false
            ((pre ++ p :: post).map fun q => Except.ok ⟨q, activity⟩) =
          Except.error e) := by
  have herr : ∃ e, parseVanguardPosition rb p activity = Except.error e := by
    unfold parseVanguardPosition
    rcases hq : parseDecimal p.shares with _ | q
    · exact ⟨.decimalError, rfl⟩
    · rw [hnone]
      exact ⟨.assertionError, rfl⟩
  obtain ⟨e, he⟩ := herr
  have he' : parseVanguardPositionAndActivity rb ⟨p, activity⟩ = Except.error e := he
  refine ⟨⟨e, he⟩, ?_, ?_⟩
  · intro pre post
    rw [List.map_append, List.map_cons, List.map_append]
    exact lenientParse_drop_failed _ he' _ _
  · intro pre post hpre
    refine ⟨e, he, ?_⟩
    rw [List.map_append, List.map_cons]
    apply lenientParse_strict_abort _ he'
    intro it hit
    rw [List.mem_map] at hit
    obtain ⟨q, hq, rfl⟩ := hit
    obtain ⟨v, hv⟩ := hpre q hq
    exact ⟨⟨q, activity⟩, v, rfl, hv⟩

/-- Witness for C1: with a basis collaborator that finds nothing, the
"ABC" position row fails, lenient mode drops it (empty result, parse
completes), and strict mode aborts with the row's error. -/
theorem claim_c1_missing_basis_mode_witness :
    (∃ e, parseVanguardPosition rbNone abcPosition [] = Except.error e) ∧
    lenientParse (parseVanguardPositionAndActivity rbNone) true
        ([abcPosition].map fun q => Except.ok ⟨q, ([] : List Activity)⟩) =
      Except.ok [] ∧
    (∃ e, parseVanguardPosition rbNone abcPosition [] = Except.error e ∧
      lenientParse (parseVanguardPositionAndActivity rbNone) false
          ([abcPosition].map fun q => Except.ok ⟨q, ([] : List Activity)⟩) =
        Except.error e) := by
  have h := claim_c1_missing_basis_mode rbNone [] abcPosition rfl
  refine ⟨h.1, ?_, h.2.2 [] [] fun q hq => absurd hq (by simp)⟩
  exact (h.2.1 [] []).trans rfl

theorem sliceSection_nil_of_no_start (crit : CSVSectionCriterion)
    (rows : List (List String))
    (h : ∀ row ∈ rows, rowMatchesBoundary crit.startSectionRowMatch row = false) :
    sliceSection crit rows = [] := by
  induction rows with
  | nil => rfl
  | cons r rows ih =>
    unfold sliceSection
    rw [h r (List.mem_cons_self r rows)]
    simp only [Bool.false_eq_true, if_false]
    exact ih fun row hr => h row (List.mem_cons_of_mem _ hr)

theorem __parseTransactions_eq (fileRows : List (List String)) (lenient : Bool) :
    __parseTransactions fileRows lenient =
      filteredParse lenient ((sliceSection transactionsCriterion fileRows).map
        fun r => (VanguardTransaction.make r).elim (Except.error Err.makeError) Except.ok) :=
  rfl

theorem __parsePositions_eq (fileRows : List (List String)) (activity : List Activity)
    (rb : RealizedBasisFn) (lenient : Bool) :
    __parsePositions fileRows activity rb lenient =
      match (sliceSection positionsCriterion fileRows).mapM
          (fun r => (VanguardPosition.make r).elim (Except.error Err.makeError) Except.ok) with
      | .error e => .error e
      | .ok vanPositions =>
        lenientParse (parseVanguardPositionAndActivity rb) lenient
          ((vanPositions.map fun pos => VanguardPositionAndActivity.mk pos activity).map
            Except.ok) :=
  rfl

/-- Claim C6: the transactions section criterion has exactly the start
pattern ["Account Number", "Trade Date"] and an empty end pattern, the
positions criterion exactly the start pattern ["Account Number"] and an
empty end pattern, and a file containing no row that matches a
criterion's start pattern yields the empty list for that section with
no error. -/
theorem claim_c6_section_criteria :
    transactionsCriterion.startSectionRowMatch = ["Account Number", "Trade Date"] ∧
    transactionsCriterion.endSectionRowMatch = [] ∧
    positionsCriterion.startSectionRowMatch = ["Account Number"] ∧
    positionsCriterion.endSectionRowMatch = [] ∧
    (∀ fileRows : List (List String),
      (∀ row ∈ fileRows,
        rowMatchesBoundary transactionsCriterion.startSectionRowMatch row = false) →
      ∀ lenient : Bool, __parseTransactions fileRows lenient = Except.ok []) ∧
    (∀ fileRows : List (List String),
      (∀ row ∈ fileRows,
        rowMatchesBoundary positionsCriterion.startSectionRowMatch row = false) →
      ∀ (activity : List Activity) (rb : RealizedBasisFn) (lenient : Bool),
        __parsePositions fileRows activity rb lenient = Except.ok []) := by
  refine ⟨rfl, rfl, rfl, rfl, ?_, ?_⟩
  · intro fileRows h lenient
    rw [__parseTransactions_eq, sliceSection_nil_of_no_start _ _ h]
    rfl
  · intro fileRows h activity rb lenient
    rw [__parsePositions_eq, sliceSection_nil_of_no_start _ _ h]
    rfl

/-- Witness for C6: a file with two non-matching rows yields empty
transactions and empty positions, with no error, in both modes. -/
theorem claim_c6_section_criteria_witness :
    __parseTransactions noHeaderFile false = Except.ok [] ∧
    __parsePositions noHeaderFile [] rbNone true = Except.ok [] := by
  exact ⟨claim_c6_section_criteria.2.2.2.2.1 noHeaderFile (by decide) false,
         claim_c6_section_criteria.2.2.2.2.2 noHeaderFile (by decide) [] rbNone true⟩

/-- Claim C9: the positions start pattern is a proper prefix of the
transactions start pattern (["Account Number"] followed by the extra
cell "Trade Date"), every row matching the transactions start pattern
also matches the positions start pattern, and when the first row of the
file matching the positions pattern is the transactions header, the
positions pass opens its section window right at that header row. -/
theorem claim_c9_overlapping_start :
    (positionsCriterion.startSectionRowMatch = ["Account Number"] ∧
     transactionsCriterion.startSectionRowMatch =
       positionsCriterion.startSectionRowMatch ++ ["Trade Date"]) ∧
    (∀ row : List String,
      rowMatchesBoundary transactionsCriterion.startSectionRowMatch row = true →
      rowMatchesBoundary positionsCriterion.startSectionRowMatch row = true) ∧
    (∀ (pre rest : List (List String)) (hdr : List String),
      (∀ row ∈ pre,
        rowMatchesBoundary positionsCriterion.startSectionRowMatch row = false) →
      rowMatchesBoundary transactionsCriterion.startSectionRowMatch hdr = true →
      sliceSection positionsCriterion (pre ++ hdr :: rest) =
        collectSection positionsCriterion rest) := by
  have himp : ∀ row : List String,
      rowMatchesBoundary transactionsCriterion.startSectionRowMatch row = true →
      rowMatchesBoundary positionsCriterion.startSectionRowMatch row = true := by
    intro row h
    unfold rowMatchesBoundary at h ⊢
    rw [beq_iff_eq] at h ⊢
    have h2 : row.take 2 = ["Account Number", "Trade Date"] := h
    have h1 : row.take 1 = (row.take 2).take 1 := by
      rw [List.take_take]
      norm_num
    show row.take 1 = ["Account Number"]
    rw [h1, h2]
    rfl
  refine ⟨⟨rfl, rfl⟩, himp, ?_⟩
  intro pre rest hdr hpre hhdr
  induction pre with
  | nil =>
    rw [List.nil_append]
    unfold sliceSection
    rw [himp hdr hhdr]
    simp only [if_true]
  | cons r pre ih =>
    rw [List.cons_append]
    unfold sliceSection
    rw [hpre r (List.mem_cons_self r pre)]
    simp only [Bool.false_eq_true, if_false]
    exact ih fun row hr => hpre row (List.mem_cons_of_mem _ hr)

/-- Witness for C9: the transactions header row also matches the
positions start pattern, and in a file with a non-matching preamble row
followed by the transactions header, the positions criterion opens its
window at that header. -/
theorem claim_c9_overlapping_start_witness :
    rowMatchesBoundary positionsCriterion.startSectionRowMatch txHeaderRow = true ∧
    sliceSection positionsCriterion ([["Foo"]] ++ txHeaderRow :: [buyRawRow]) =
      collectSection positionsCriterion [buyRawRow] := by
  exact ⟨claim_c9_overlapping_start.2.1 txHeaderRow (by decide),
         claim_c9_overlapping_start.2.2 [["Foo"]] [buyRawRow] txHeaderRow
           (by decide) (by decide)⟩

/-- Claim C7: the transactions row filter drops exactly the first and
last columns (elementwise: position i of the filtered row is position
i+1 of the raw row, and the length shrinks by two); the positions row
filter is the window of columns 1–5; and record construction succeeds
exactly at arity 13 (transactions) and 5 (positions), binding the
filtered columns positionally to the named fields. -/
theorem claim_c7_row_shapes :
    (∀ r : List String,
      transactionsCriterion.rowFilter r = (r.drop 1).dropLast ∧
      (transactionsCriterion.rowFilter r).length = r.length - 2 ∧
      (∀ i : Nat, i + 2 < r.length →
        (transactionsCriterion.rowFilter r)[i]? = r[i + 1]?)) ∧
    (∀ r : List String,
      positionsCriterion.rowFilter r = (r.drop 1).take 5 ∧
      (positionsCriterion.rowFilter r).length = min 5 (r.length - 1) ∧
      (∀ i : Nat, i < 5 → (positionsCriterion.rowFilter r)[i]? = r[i + 1]?)) ∧
    (∀ xs : List String, (VanguardTransaction.make xs).isSome ↔ xs.length = 13) ∧
    (∀ (xs : List String) (t : VanguardTransaction),
      VanguardTransaction.make xs = some t ↔
        xs = [t.tradeDate, t.settlementDate, t.transactionType,
              t.transactionDescription, t.investmentName, t.symbol, t.shares,
              t.sharePrice, t.principalAmount, t.commissionFees, t.netAmount,
              t.accruedInterest, t.accountType]) ∧
    (∀ xs : List String, (VanguardPosition.make xs).isSome ↔ xs.length = 5) ∧
    (∀ (xs : List String) (p : VanguardPosition),
      VanguardPosition.make xs = some p ↔
        xs = [p.investmentName, p.symbol, p.shares, p.sharePrice, p.totalValue]) := by
  refine ⟨?_, ?_, ?_, ?_, ?_, ?_⟩
  · intro r
    refine ⟨rfl, ?_, ?_⟩
    · show ((r.drop 1).dropLast).length = r.length - 2
      rw [List.length_dropLast, List.length_drop]
      omega
    · intro i hi
      show ((r.drop 1).dropLast)[i]? = r[i + 1]?
      have hcond : i < (r.drop 1).length - 1 := by
        rw [List.length_drop]
        omega
      rw [List.getElem?_dropLast, if_pos hcond, List.getElem?_drop, Nat.add_comm 1 i]
  · intro r
    refine ⟨rfl, ?_, ?_⟩
    · show ((r.drop 1).take 5).length = min 5 (r.length - 1)
      rw [List.length_take, List.length_drop]
    · intro i hi
      show ((r.drop 1).take 5)[i]? = r[i + 1]?
      rw [List.getElem?_take_of_lt hi, List.getElem?_drop, Nat.add_comm 1 i]
  · intro xs
    rcases xs with _ | ⟨a1, _ | ⟨a2, _ | ⟨a3, _ | ⟨a4, _ | ⟨a5, _ | ⟨a6, _ | ⟨a7, _ |
      ⟨a8, _ | ⟨a9, _ | ⟨a10, _ | ⟨a11, _ | ⟨a12, _ | ⟨a13, _ | ⟨a14, rest⟩⟩⟩⟩⟩⟩⟩⟩⟩⟩⟩⟩⟩⟩ <;>
      simp [VanguardTransaction.make]
  · intro xs t
    obtain ⟨b1, b2, b3, b4, b5, b6, b7, b8, b9, b10, b11, b12, b13⟩ := t
    rcases xs with _ | ⟨a1, _ | ⟨a2, _ | ⟨a3, _ | ⟨a4, _ | ⟨a5, _ | ⟨a6, _ | ⟨a7, _ |
      ⟨a8, _ | ⟨a9, _ | ⟨a10, _ | ⟨a11, _ | ⟨a12, _ | ⟨a13, _ | ⟨a14, rest⟩⟩⟩⟩⟩⟩⟩⟩⟩⟩⟩⟩⟩⟩ <;>
      simp [VanguardTransaction.make]
  · intro xs
    rcases xs with _ | ⟨a1, _ | ⟨a2, _ | ⟨a3, _ | ⟨a4, _ | ⟨a5, _ | ⟨a6, rest⟩⟩⟩⟩⟩⟩ <;>
      simp [VanguardPosition.make]
  · intro xs p
    obtain ⟨b1, b2, b3, b4, b5⟩ := p
    rcases xs with _ | ⟨a1, _ | ⟨a2, _ | ⟨a3, _ | ⟨a4, _ | ⟨a5, _ | ⟨a6, rest⟩⟩⟩⟩⟩⟩ <;>
      simp [VanguardPosition.make]

/-- Witness for C7: the raw "Buy" row filters to exactly its 13 middle
columns, which bind positionally to `buyRow`; a two-element list cannot
build a transaction record. -/
theorem claim_c7_row_shapes_witness :
    (transactionsCriterion.rowFilter buyRawRow).length = buyRawRow.length - 2 ∧
    (transactionsCriterion.rowFilter buyRawRow)[0]? = buyRawRow[1]? ∧
    VanguardTransaction.make (transactionsCriterion.rowFilter buyRawRow) = some buyRow ∧
    (VanguardPosition.make ((["ACCT123"] ++ [buyRow.investmentName, "ABC", "10",
      "100.00", "1000.00"] ++ ["x"]).drop 1 |>.take 5)).isSome = true ∧
    (VanguardTransaction.make ["too", "short"]).isSome = false := by
  refine ⟨(claim_c7_row_shapes.1 buyRawRow).2.1,
          (claim_c7_row_shapes.1 buyRawRow).2.2 0 (by decide), ?_, ?_, ?_⟩
  · rw [claim_c7_row_shapes.2.2.2.1 (transactionsCriterion.rowFilter buyRawRow) buyRow]
    decide
  · exact (claim_c7_row_shapes.2.2.2.2.1 _).mpr (by decide)
  · cases hs : (VanguardTransaction.make ["too", "short"]).isSome with
    | false => rfl
    | true =>
      exact absurd ((claim_c7_row_shapes.2.2.1 ["too", "short"]).mp hs) (by decide)

theorem decimalVal_eq (sign : Int) (x k : Nat) (e : Int) :
    decimalVal sign x k e =
      (sign : ℚ) * (x : ℚ) / (10 : ℚ) ^ k * (10 : ℚ) ^ e := by
  unfold decimalVal
  split
  next he =>
    rw [Rat.mkRat_eq_div]
    push_cast
    have h1 : ((10 : ℚ) ^ e.toNat) = (10 : ℚ) ^ e := by
      rw [← zpow_natCast]
      congr 1
      omega
    rw [h1]
    ring
  next he =>
    rw [Rat.mkRat_eq_div]
    push_cast
    have h1 : ((10 : ℚ) ^ (-e).toNat) = (10 : ℚ) ^ (-e : Int) := by
      rw [← zpow_natCast]
      congr 1
      omega
    rw [h1, zpow_neg, div_mul_eq_div_div, div_eq_mul_inv _ ((10 : ℚ) ^ e)⁻¹, inv_inv]

theorem parseDecimal_some_inv {s : String} {q : ℚ} (h : parseDecimal s = some q) :
    ∃ (sign : Int) (rest mant expPart : List Char) (x k : Nat) (e : Int),
      splitSign (decimalClean s.data) = (sign, rest) ∧
      rest.span (fun c => c ≠ 'e' && c ≠ 'E') = (mant, expPart) ∧
      parseMantissa mant = some (x, k) ∧
      parseExpPart expPart = some e ∧
      q = (sign : ℚ) * (x : ℚ) / (10 : ℚ) ^ k * (10 : ℚ) ^ e := by
  simp only [parseDecimal] at h
  rcases hsp : splitSign (decimalClean s.data) with ⟨sign, rest⟩
  rw [hsp] at h
  rcases hspan : rest.span (fun c => c ≠ 'e' && c ≠ 'E') with ⟨mant, ep⟩
  rw [hspan] at h
  rcases hm : parseMantissa mant with _ | ⟨x, k⟩ <;> rw [hm] at h
  · cases h
  rcases he : parseExpPart ep with _ | e <;> rw [he] at h
  · cases h
  simp only [Option.some.injEq] at h
  exact ⟨sign, rest, mant, ep, x, k, e, rfl, hspan, hm, he, by rw [← h, decimalVal_eq]⟩

/-- Claim C8: for a recognized transaction type, a trade date not in the
fixed %m/%d/%Y format or a malformed shares, principal-amount or
commission/fees decimal string makes conversion fail with a row-level
error; nothing malformed is truncated or replaced by a partial value.
When the four fields are well-formed, the produced trade carries exactly
the parsed values, and every parsed decimal is the exact rational
sign·x·10^e/10^k read off the text. -/
theorem claim_c8_exact_numeric_parsing :
    (∀ t : VanguardTransaction,
      validTransactionTypes.contains t.transactionType = true →
      (parseDecimal t.commissionFees = none ∨ parseDecimal t.principalAmount = none ∨
       parseDecimal t.shares = none ∨ strptimeMDY t.tradeDate = none) →
      ∃ e, parseVanguardTransaction t = Except.error e) ∧
    (∀ (t : VanguardTransaction) (qf qa qs : ℚ) (d : DateMDY),
      validTransactionTypes.contains t.transactionType = true →
      parseDecimal t.commissionFees = some qf →
      parseDecimal t.principalAmount = some qa →
      parseDecimal t.shares = some qs →
      strptimeMDY t.tradeDate = some d →
      ∃ tr, parseVanguardTransaction t = Except.ok (some tr) ∧
        tr.fees.quantity = qf ∧ tr.amount.quantity = qa ∧
        tr.quantity = (if t.transactionDescription = "Redemption" then -qs else qs) ∧
        tr.date = d) ∧
    (∀ (s : String) (q : ℚ), parseDecimal s = some q →
      ∃ (sign : Int) (rest mant expPart : List Char) (x k : Nat) (e : Int),
        splitSign (decimalClean s.data) = (sign, rest) ∧
        rest.span (fun c => c ≠ 'e' && c ≠ 'E') = (mant, expPart) ∧
        parseMantissa mant = some (x, k) ∧
        parseExpPart expPart = some e ∧
        q = (sign : ℚ) * (x : ℚ) / (10 : ℚ) ^ k * (10 : ℚ) ^ e) := by
  refine ⟨?_, ?_, fun s q h => parseDecimal_some_inv h⟩
  · intro t hty hbad
    have hforce : ∃ e,
        forceParseVanguardTransaction t (flagsByTransactionType t.transactionType) =
          Except.error e := by
      unfold forceParseVanguardTransaction
      rcases hf : parseDecimal t.commissionFees with _ | qf
      · exact ⟨.decimalError, rfl⟩
      rcases ha : parseDecimal t.principalAmount with _ | qa
      · exact ⟨.decimalError, rfl⟩
      rcases hs : parseDecimal t.shares with _ | qs
      · exact ⟨.decimalError, rfl⟩
      rcases hd : strptimeMDY t.tradeDate with _ | d
      · exact ⟨.dateError, rfl⟩
      exfalso
      rcases hbad with h | h | h | h
      · exact Option.noConfusion (h.symm.trans hf)
      · exact Option.noConfusion (h.symm.trans ha)
      · exact Option.noConfusion (h.symm.trans hs)
      · exact Option.noConfusion (h.symm.trans hd)
    obtain ⟨e, he⟩ := hforce
    refine ⟨e, ?_⟩
    unfold parseVanguardTransaction
    rw [hty]
    simp only [Bool.not_true, Bool.false_eq_true, if_false]
    rw [he]
    rfl
  · intro t qf qa qs d hty hf ha hs hd
    refine ⟨⟨d, resolvedInstrument t.symbol t.investmentName,
      (if t.transactionDescription = "Redemption" then qs * (-1) else qs),
      ⟨Currency.USD, qa⟩, ⟨Currency.USD, qf⟩, flagsByTransactionType t.transactionType⟩,
      ?_, rfl, rfl, ?_, rfl⟩
    · unfold parseVanguardTransaction forceParseVanguardTransaction
      rw [hty]
      simp only [Bool.not_true, Bool.false_eq_true, if_false]
      rw [hf, ha, hs, hd]
      rfl
    · by_cases hdesc : t.transactionDescription = "Redemption" <;>
        simp [hdesc, mul_neg_one]

/-- Witness for C8: a recognized row with an ISO-format date fails;
the well-formed "Buy" row parses to the exact fee, amount, share and
date values; parseDecimal "10" decomposes exactly. -/
theorem claim_c8_exact_numeric_parsing_witness :
    (∃ e, parseVanguardTransaction badDateRow = Except.error e) ∧
    (∃ tr, parseVanguardTransaction buyRow = Except.ok (some tr) ∧
      tr.fees.quantity = 0 ∧ tr.amount.quantity = -1000 ∧
      tr.quantity = (if buyRow.transactionDescription = "Redemption"
        then -(10 : ℚ) else 10) ∧
      tr.date = ⟨2020, 1, 2⟩) ∧
    (∃ (sign : Int) (rest mant expPart : List Char) (x k : Nat) (e : Int),
      splitSign (decimalClean ("10" : String).data) = (sign, rest) ∧
      rest.span (fun c => c ≠ 'e' && c ≠ 'E') = (mant, expPart) ∧
      parseMantissa mant = some (x, k) ∧
      parseExpPart expPart = some e ∧
      (10 : ℚ) = (sign : ℚ) * (x : ℚ) / (10 : ℚ) ^ k * (10 : ℚ) ^ e) := by
  refine ⟨claim_c8_exact_numeric_parsing.1 badDateRow (by decide)
            (Or.inr (Or.inr (Or.inr (by decide)))),
          claim_c8_exact_numeric_parsing.2.1 buyRow 0 (-1000) 10 ⟨2020, 1, 2⟩
            (by decide) (by decide) (by decide) (by decide) (by decide),
          claim_c8_exact_numeric_parsing.2.2 "10" 10 (by decide)⟩
